import Mathlib

/-!
Verification of the shub dashboard core against its specification.

The definitions below are a shallow embedding of the Rust source:
* `src/types.rs` — the `BuildStatus` enum (derived `Ord` follows declaration
  order: `Success`, `Failure`, `InProgress`) and its `Display`/`FromStr`
  string codecs;
* `src/commands/dashboard.rs` — the check-run mapping/reduction step of
  `get_build_status`, and the collection phase of `update_build_statuses`;
* `src/database.rs` — the sqlite-backed cache (`put_repositories`,
  `get_dashboard_repositories`, `set_build_statuses`) modelled as a list of
  rows, the `UNIQUE (owner, name) ON CONFLICT REPLACE` constraint as
  delete-then-append;
* `src/github_client2.rs` — the `PageCursor` pagination state machine of
  `list_owned_repositories`; the cursor's page number is a Rust `u8`, so
  increments are taken modulo 256.
-/

namespace Shub

/-- `BuildStatus` from src/types.rs. The Rust enum derives `Ord`, which
orders variants by declaration order: `Success < Failure < InProgress`. -/
inductive BuildStatus where
  | Success
  | Failure
  | InProgress
deriving DecidableEq, Repr, Fintype

/-- Declaration-order rank of a `BuildStatus` variant; the derived Rust
`Ord` compares variants by this rank. -/
def BuildStatus.rank : BuildStatus → Nat
  | .Success => 0
  | .Failure => 1
  | .InProgress => 2

/-- Rank of an `Option<BuildStatus>` under Rust's derived `Ord` for
`Option`: `None` is below every `Some`. -/
def obsRank : Option BuildStatus → Nat
  | none => 0
  | some s => s.rank + 1

/-- Rust `std::cmp::max` on `Option<BuildStatus>`: returns the first
argument when it is strictly greater, otherwise the second. -/
def obsMax (a b : Option BuildStatus) : Option BuildStatus :=
  if obsRank b < obsRank a then a else b

/-- Rust `std::cmp::max` on `BuildStatus` itself. -/
def bsMax (a b : BuildStatus) : BuildStatus :=
  if b.rank < a.rank then a else b

instance : RightCommutative obsMax := ⟨by decide⟩

/-- The fields of `GhCheckRun` (src/github_models.rs) that the reducer in
`get_build_status` reads; the remaining fields (`id`, `head_sha`,
timestamps, `output`, `name`) are never consulted by the modelled code. -/
structure CheckRun where
  status : String
  conclusion : Option String
deriving DecidableEq, Repr

/-- The per-run mapping inside `get_build_status`
(src/commands/dashboard.rs, the `match x.status.as_str()` expression). -/
def mapCheckRun (x : CheckRun) : Option BuildStatus :=
  match x.status with
  | "queued" => none
  | "in_progress" => some .InProgress
  | "completed" =>
    match x.conclusion with
    | some "success" => some .Success
    | _ => some .Failure
  | _ => some .Failure

/-- Rust's `Iterator::reduce`: `none` on an empty iterator, otherwise a
left fold of the tail over the head. -/
def rustReduce (f : α → α → α) : List α → Option α
  | [] => none
  | x :: xs => some (xs.foldl f x)

/-- The mapping-and-reduction step of `get_build_status`
(src/commands/dashboard.rs): map each run, `reduce` with `max` over
`Option<BuildStatus>`, then `flatten`. -/
def reduceCheckRuns (runs : List CheckRun) : Option BuildStatus :=
  (rustReduce obsMax (runs.map mapCheckRun)).join

/-- Modelled from the spec: the spec's per-run mapping — `queued` is
excluded from the reduction, `in_progress` maps to `InProgress`,
`completed`/`success` to `Success`, `completed` otherwise to `Failure`,
and any other status string to `Failure`. -/
def specMapRun (x : CheckRun) : Option BuildStatus :=
  match x.status with
  | "queued" => none
  | "in_progress" => some .InProgress
  | "completed" =>
    match x.conclusion with
    | some "success" => some .Success
    | _ => some .Failure
  | _ => some .Failure

/-- Modelled from the spec: severity under the spec's claimed order
`Success < InProgress < Failure`. -/
def specSeverity : BuildStatus → Nat
  | .Success => 0
  | .InProgress => 1
  | .Failure => 2

/-- Modelled from the spec: `max` under the spec's claimed severity
order. -/
def specMax (a b : BuildStatus) : BuildStatus :=
  if specSeverity b < specSeverity a then a else b

/-- Modelled from the spec: the reference reducer — map the runs (queued
contributing nothing), combine with `max` under
`Success < InProgress < Failure`, `none` when nothing contributes. -/
def specReduce (runs : List CheckRun) : Option BuildStatus :=
  match runs.filterMap specMapRun with
  | [] => none
  | v :: vs => some (vs.foldl specMax v)

/-- The reference reducer amended to the order the code actually uses:
`max` under the derived order `Success < Failure < InProgress`. -/
def amendedReduce (runs : List CheckRun) : Option BuildStatus :=
  match runs.filterMap specMapRun with
  | [] => none
  | v :: vs => some (vs.foldl bsMax v)

/-- The `Display` impl of `BuildStatus` (src/types.rs), used by `ToSql` in
src/database.rs to serialise a status into the `build_status` column. -/
def BuildStatus.toDbString : BuildStatus → String
  | .Success => "success"
  | .Failure => "failure"
  | .InProgress => "in_progress"

/-- The `FromStr` impl of `BuildStatus` (src/types.rs), used by `FromSql`
in src/database.rs; an unrecognised string is a parse error (`none`). -/
def parseBuildStatus : String → Option BuildStatus
  | "success" => some .Success
  | "failure" => some .Failure
  | "in_progress" => some .InProgress
  | _ => none

/-- The domain type `Repository` from src/types.rs. -/
structure Repository where
  name : String
  owner : String
  a_fork : Bool
  archived : Bool
  build_status : Option BuildStatus
deriving DecidableEq, Repr

/-- One row of the `repositories` table (src/database.rs `MIGRATIONS`);
the `build_status` column is nullable text.  The `rid` rowid is modelled
by the row's position in the list. -/
structure DbRow where
  owner : String
  name : String
  a_fork : Bool
  archived : Bool
  build_status : Option String
deriving DecidableEq, Repr

/-- The database state: the rows of the `repositories` table in rowid
order. -/
abbrev DB := List DbRow

/-- The serialisation performed by the `INSERT` in `put_repositories`
(src/database.rs): fields are bound as-is, the status through `ToSql`. -/
def encodeRepo (r : Repository) : DbRow :=
  { owner := r.owner
    name := r.name
    a_fork := r.a_fork
    archived := r.archived
    build_status := r.build_status.map BuildStatus.toDbString }

/-- Whether a row has the given `(owner, name)` key. -/
def keyMatches (row : DbRow) (owner name : String) : Bool :=
  row.owner == owner && row.name == name

/-- One `INSERT` of `put_repositories` under the schema's
`UNIQUE (owner, name) ON CONFLICT REPLACE`: sqlite deletes every
conflicting row, then inserts the new row with a fresh rowid (appended). -/
def insertRow (db : DB) (r : Repository) : DB :=
  db.filter (fun row => !(keyMatches row r.owner r.name)) ++ [encodeRepo r]

/-- `put_repositories` (src/database.rs): one transaction inserting each
record in order. -/
def put_repositories (db : DB) (rs : List Repository) : DB :=
  rs.foldl insertRow db

/-- The `WHERE` clause of the `SELECT` in `get_dashboard_repositories`
(src/database.rs): owner matches and the row is neither a fork nor
archived. -/
def visibleFor (owner : String) (row : DbRow) : Bool :=
  row.owner == owner && row.a_fork == false && row.archived == false

/-- The row mapping of `get_dashboard_repositories`: `owner`, `name` and
`build_status` come from the selected columns (the status through
`FromSql`, which can fail on a malformed string), `a_fork`/`archived` are
filled with `false`. -/
def decodeRow (row : DbRow) : Option Repository :=
  match row.build_status with
  | none =>
    some { name := row.name, owner := row.owner, a_fork := false,
           archived := false, build_status := none }
  | some s =>
    (parseBuildStatus s).map fun bs =>
      { name := row.name, owner := row.owner, a_fork := false,
        archived := false, build_status := some bs }

/-- `get_dashboard_repositories` (src/database.rs): select the visible
rows for the owner and decode each; the first decode failure fails the
whole query (`collect::<Result<_,_>>`). -/
def get_dashboard_repositories (db : DB) (owner : String) :
    Option (List Repository) :=
  (db.filter (visibleFor owner)).mapM decodeRow

/-- One `UPDATE` statement of `set_build_statuses` (src/database.rs):
set `build_status` on every row matching the key, leave the rest alone. -/
def setBuildStatus (db : DB) (owner name : String) (s : BuildStatus) : DB :=
  db.map fun row =>
    if keyMatches row owner name then
      { row with build_status := some s.toDbString }
    else row

/-- `Database::set_build_statuses` (src/database.rs): one transaction
running the `UPDATE` for each `((owner, name), status)` pair in order. -/
def set_build_statuses (db : DB) (pairs : List ((String × String) × BuildStatus)) :
    DB :=
  pairs.foldl (fun d p => setBuildStatus d p.1.1 p.1.2 p.2) db

/-- The value the `build_status` column of a row keyed `(owner, name)`
holds after the updates for `pairs` have run over an initial value `b`:
the last matching pair wins. -/
def lastStatusFrom (pairs : List ((String × String) × BuildStatus))
    (owner name : String) (b : Option String) : Option String :=
  pairs.foldl
    (fun acc p =>
      if owner == p.1.1 && name == p.1.2 then some p.2.toDbString else acc)
    b

/-- The status a row's `build_status` column holds after
`set_build_statuses`: the last matching pair wins, a row matched by no
pair keeps its previous value. -/
def lastStatus (pairs : List ((String × String) × BuildStatus)) (row : DbRow) :
    Option String :=
  lastStatusFrom pairs row.owner row.name row.build_status

/-- A single-pair update list used by witnesses. -/
def wPairs : List ((String × String) × BuildStatus) :=
  [(("o", "n"), BuildStatus.Failure)]

/-- A concrete row matched by none of the `wPairs` keys. -/
def wRowUnmatched : DbRow :=
  { owner := "q", name := "w", a_fork := false, archived := false,
    build_status := some "failure" }

/-- Well-formedness of a row: the `build_status` column, if non-null, is
the `ToSql` encoding of some status — the only strings the program ever
writes there. -/
def WFRow (row : DbRow) : Prop :=
  (row.build_status.bind parseBuildStatus).map BuildStatus.toDbString =
    row.build_status

/-- Well-formedness of a database state. -/
def WF (db : DB) : Prop := ∀ row ∈ db, WFRow row

/-- `PageCursor` from src/github_client2.rs.  The Rust page number is a
`u8`; we carry a `Nat` and take every increment modulo 256 (release-mode
wrapping arithmetic). -/
inductive PageCursor where
  | Page (n : Nat)
  | End
deriving DecidableEq, Repr

/-- A paged source: page number to batch of items plus the "has a next
page" flag (`page.next.is_some()` in the code). -/
def PagedSource (T : Type) := Nat → List T × Bool

/-- One iteration of the `try_unfold` body of `list_owned_repositories`
(src/github_client2.rs): at `End` the stream short-circuits without
fetching; at `Page p` it fetches page `p`, yields the batch, and moves to
`Page ((p+1) % 256)` when the response has a next page, else to `End`. -/
def fetchStep (fetch : PagedSource T) : PageCursor → Option (List T × PageCursor)
  | .End => none
  | .Page p =>
    some ((fetch p).1, if (fetch p).2 then .Page ((p + 1) % 256) else .End)

/-- The items the stream has produced once it terminates, computed with
explicit fuel: `some items` when the unfold reaches `End` within `fuel`
steps, `none` when it does not terminate within the fuel. -/
def runPages (fetch : PagedSource T) : PageCursor → Nat → Option (List T)
  | .End, _ => some []
  | .Page _, 0 => none
  | .Page p, fuel + 1 =>
    (runPages fetch (if (fetch p).2 then .Page ((p + 1) % 256) else .End)
        fuel).map ((fetch p).1 ++ ·)

/-- The cursor after `n` iterations of the unfold, starting from the
initial cursor (`PageCursor::default()`, i.e. `Page 0`). -/
def cursorTrace (fetch : PagedSource T) : Nat → PageCursor
  | 0 => .Page 0
  | n + 1 =>
    match cursorTrace fetch n with
    | .End => .End
    | .Page p => if (fetch p).2 then .Page ((p + 1) % 256) else .End

/-- The cursor states reachable by the stream for a given source. -/
inductive ReachableCursor (fetch : PagedSource T) : PageCursor → Prop where
  | start : ReachableCursor fetch (.Page 0)
  | more {p : Nat} : ReachableCursor fetch (.Page p) → (fetch p).2 = true →
      ReachableCursor fetch (.Page ((p + 1) % 256))
  | done {p : Nat} : ReachableCursor fetch (.Page p) → (fetch p).2 = false →
      ReachableCursor fetch .End

/-- The fetch phase of `update_build_statuses`
(src/commands/dashboard.rs): the `and_then` stage runs the per-repository
fetch sequentially while `try_for_each_concurrent` sends each present
status into the channel; the first fetch error stops the stream, and —
because the producer task's `JoinHandle` is dropped unawaited — the
collector still drains what was already sent and returns it. -/
def collectStatuses (fetch : Repository → Except Unit (Option BuildStatus)) :
    List Repository → List (Repository × BuildStatus)
  | [] => []
  | r :: rest =>
    match fetch r with
    | .error _ => []
    | .ok none => collectStatuses fetch rest
    | .ok (some s) => (r, s) :: collectStatuses fetch rest

/-- `update_build_statuses` (src/commands/dashboard.rs): read the stored
repositories, collect the fetched `(repository, status)` pairs (see
`collectStatuses` for the error behaviour), and persist them with
`set_build_statuses` keyed by each repository's `(owner, name)`.  `none`
models a database error; fetch errors never produce one. -/
def update_build_statuses (fetch : Repository → Except Unit (Option BuildStatus))
    (db : DB) (owner : String) : Option DB :=
  (get_dashboard_repositories db owner).map fun repos =>
    set_build_statuses db
      ((collectStatuses fetch repos).map fun p => ((p.1.owner, p.1.name), p.2))

-- Concrete inputs for counterexamples and witnesses ------------------------

/-- Two check runs: one completed with a non-success conclusion, one still
in progress. -/
def c1runs : List CheckRun :=
  [{ status := "completed", conclusion := some "failure" },
   { status := "in_progress", conclusion := none }]

/-- A database holding a single fork row owned by "o". -/
def c3forkRow : DbRow :=
  { owner := "o", name := "n", a_fork := true, archived := false,
    build_status := none }

/-- The database consisting of just `c3forkRow`. -/
def c3db : DB := [c3forkRow]

/-- A database with two visible repositories of owner "o". -/
def c2db : DB :=
  [{ owner := "o", name := "a", a_fork := false, archived := false,
     build_status := none },
   { owner := "o", name := "b", a_fork := false, archived := false,
     build_status := none }]

/-- A status fetch that succeeds on repository "a" and fails on every
other repository. -/
def c2fetch (r : Repository) : Except Unit (Option BuildStatus) :=
  if r.name == "a" then .ok (some .Success) else .error ()

/-- `c2db` after the partially-collected pair for "a" has been persisted. -/
def c2dbAfter : DB :=
  [{ owner := "o", name := "a", a_fork := false, archived := false,
     build_status := some "success" },
   { owner := "o", name := "b", a_fork := false, archived := false,
     build_status := none }]

/-- A paged source that always reports a further page. -/
def allMoreSource : PagedSource Nat := fun p => ([p], true)

/-- A finite paged source with 257 pages: pages 0 through 255 report more
data, every page from 256 on reports none. -/
def deepSource : PagedSource Nat := fun p => ([p], decide (p < 256))

/-- A two-page source: page 0 has two items and a next page, page 1 has
one item and is the last. -/
def twoPageSource : PagedSource Nat :=
  fun p => if p == 0 then ([10, 11], true) else ([12], false)

/-- A sample repository used by witnesses. -/
def wRepo : Repository :=
  { name := "n", owner := "o", a_fork := false, archived := false,
    build_status := some .Failure }

/-- A database with one stale row at `wRepo`'s key and one unrelated row. -/
def wDb : DB :=
  [{ owner := "o", name := "n", a_fork := false, archived := false,
     build_status := some "success" },
   { owner := "o", name := "z", a_fork := false, archived := true,
     build_status := none }]

instance : DecidablePred WFRow := fun row => by
  unfold WFRow; infer_instance

instance (db : DB) : Decidable (WF db) := by
  unfold WF; infer_instance

-- Reducer lemmas -----------------------------------------------------------

theorem obsMax_none_left (x : Option BuildStatus) : obsMax none x = x := by
  cases x <;> simp [obsMax, obsRank]

theorem obsMax_some_some (a b : BuildStatus) :
    obsMax (some a) (some b) = some (bsMax a b) := by
  by_cases h : b.rank < a.rank <;>
    simp [obsMax, bsMax, obsRank, h, Nat.succ_lt_succ_iff]

theorem obsMax_some_none (a : BuildStatus) :
    obsMax (some a) none = some a := by
  simp [obsMax, obsRank]

theorem rustReduce_join (l : List (Option BuildStatus)) :
    (rustReduce obsMax l).join = l.foldl obsMax none := by
  cases l with
  | nil => rfl
  | cons x xs => simp [rustReduce, Option.join, obsMax_none_left]

theorem foldl_obsMax_some (l : List (Option BuildStatus)) (a : BuildStatus) :
    l.foldl obsMax (some a) =
      some ((l.filterMap id).foldl bsMax a) := by
  induction l generalizing a with
  | nil => rfl
  | cons x xs ih =>
    cases x with
    | none => simpa [obsMax_some_none] using ih a
    | some b => simpa [obsMax_some_some] using ih (bsMax a b)

theorem foldl_obsMax_none (l : List (Option BuildStatus)) :
    l.foldl obsMax none =
      (match l.filterMap id with
       | [] => none
       | v :: vs => some (vs.foldl bsMax v)) := by
  induction l with
  | nil => rfl
  | cons x xs ih =>
    cases x with
    | none => simpa [obsMax_none_left] using ih
    | some a => simp [obsMax_none_left, foldl_obsMax_some]

theorem specMapRun_eq_mapCheckRun : specMapRun = mapCheckRun := rfl

theorem reduceCheckRuns_eq_amendedReduce (runs : List CheckRun) :
    reduceCheckRuns runs = amendedReduce runs := by
  unfold reduceCheckRuns amendedReduce
  rw [rustReduce_join, foldl_obsMax_none, List.filterMap_map,
    specMapRun_eq_mapCheckRun]
  rfl

-- Claim C1 -----------------------------------------------------------------

/-- C1 counterexample: the claimed severity order is wrong.  On a run list
with one completed-failure run and one in-progress run, the code's reducer
(`reduceCheckRuns`, which combines with `max` under the derived order
`Success < Failure < InProgress`) yields `InProgress`, while the spec's
reference reducer (`specReduce`, order `Success < InProgress < Failure`)
yields `Failure`; they disagree. -/
theorem c1_order_counterexample :
    reduceCheckRuns c1runs = some BuildStatus.InProgress ∧
    specReduce c1runs = some BuildStatus.Failure ∧
    reduceCheckRuns c1runs ≠ specReduce c1runs := by
  refine ⟨by decide, by decide, by decide⟩

/-- C1 (amended): the mapping-and-reduction step of `get_build_status`
equals the reference reducer with the severity order amended to the one
the code's derived `Ord` actually uses, `Success < Failure < InProgress`:
each run maps as the claim states (queued contributing nothing, any
completed run without conclusion "success" and any unknown status string
mapping to `Failure`), the mapped values combine with `max`, and the
result is `none` when the run list is empty or every run was queued. -/
theorem c1_reducer_eq_amended_reference (runs : List CheckRun) :
    reduceCheckRuns runs = amendedReduce runs :=
  reduceCheckRuns_eq_amendedReduce runs

-- Claim C9 -----------------------------------------------------------------

/-- C9: the status reducer is invariant under reordering of its input —
for any two permuted lists of check runs, the mapping-and-reduction step
of `get_build_status` yields the same optional `BuildStatus`. -/
theorem c9_reduce_perm_invariant (l l' : List CheckRun)
    (h : List.Perm l l') : reduceCheckRuns l = reduceCheckRuns l' := by
  unfold reduceCheckRuns
  rw [rustReduce_join, rustReduce_join]
  exact (h.map mapCheckRun).foldl_eq none

/-- C9 witness: the reducer agrees on a concrete two-run list and its
transposition. -/
theorem c9_reduce_perm_invariant_witness :
    reduceCheckRuns
        [{ status := "in_progress", conclusion := none },
         { status := "completed", conclusion := some "failure" }] =
      reduceCheckRuns
        [{ status := "completed", conclusion := some "failure" },
         { status := "in_progress", conclusion := none }] :=
  c9_reduce_perm_invariant _ _
    (List.Perm.swap
      ({ status := "completed", conclusion := some "failure" } : CheckRun)
      ({ status := "in_progress", conclusion := none } : CheckRun) [])

-- Cache update lemmas ------------------------------------------------------

theorem set_build_statuses_cons (db : DB)
    (p : (String × String) × BuildStatus)
    (ps : List ((String × String) × BuildStatus)) :
    set_build_statuses db (p :: ps) =
      set_build_statuses (setBuildStatus db p.1.1 p.1.2 p.2) ps := rfl

theorem set_eq_map_lastStatus
    (pairs : List ((String × String) × BuildStatus)) :
    ∀ db : DB, set_build_statuses db pairs =
      db.map fun row => { row with build_status := lastStatus pairs row } := by
  induction pairs with
  | nil =>
    intro db
    simp [set_build_statuses, lastStatus, lastStatusFrom]
  | cons p ps ih =>
    intro db
    rw [set_build_statuses_cons, ih, setBuildStatus, List.map_map]
    apply List.map_congr_left
    intro row _
    by_cases hb : (row.owner == p.1.1 && row.name == p.1.2) = true
    · have hp : row.owner = p.1.1 ∧ row.name = p.1.2 := by simpa using hb
      simp [Function.comp, keyMatches, hb, lastStatus, lastStatusFrom,
        if_pos hp]
    · rw [Bool.not_eq_true] at hb
      have hp : ¬(row.owner = p.1.1 ∧ row.name = p.1.2) := by simpa using hb
      simp [Function.comp, keyMatches, hb, lastStatus, lastStatusFrom,
        if_neg hp]

theorem lastStatusFrom_no_match
    (pairs : List ((String × String) × BuildStatus)) (o n : String) :
    ∀ b : Option String,
      (∀ p ∈ pairs, (o == p.1.1 && n == p.1.2) = false) →
      lastStatusFrom pairs o n b = b := by
  induction pairs with
  | nil => intro b _; rfl
  | cons p ps ih =>
    intro b h
    have hp := h p (List.mem_cons_self p ps)
    show lastStatusFrom ps o n (if o == p.1.1 && n == p.1.2
        then some p.2.toDbString else b) = b
    rw [hp]
    exact ih b fun q hq => h q (List.mem_cons_of_mem p hq)

-- Claim C5 -----------------------------------------------------------------

/-- C5: `set_build_statuses` changes only the `build_status` column.  The
resulting state maps each row to itself with only `build_status` replaced
(so `owner`, `name`, `a_fork` and `archived` of every row are unchanged,
and no row is added or removed), and a row matched by no pair keeps even
its `build_status`. -/
theorem c5_set_build_statuses_frame (db : DB)
    (pairs : List ((String × String) × BuildStatus)) :
    set_build_statuses db pairs =
      (db.map fun row => { row with build_status := lastStatus pairs row }) ∧
    ∀ row : DbRow, (∀ p ∈ pairs, keyMatches row p.1.1 p.1.2 = false) →
      lastStatus pairs row = row.build_status := by
  refine ⟨set_eq_map_lastStatus pairs db, ?_⟩
  intro row h
  exact lastStatusFrom_no_match pairs row.owner row.name row.build_status
    fun p hp => h p hp

/-- C5 witness: the frame property evaluated on a concrete database and a
single-pair update, together with the no-match case on a concrete row. -/
theorem c5_set_build_statuses_frame_witness :
    (set_build_statuses wDb wPairs =
      (wDb.map fun row => { row with build_status := lastStatus wPairs row })) ∧
    lastStatus wPairs wRowUnmatched = wRowUnmatched.build_status := by
  refine ⟨(c5_set_build_statuses_frame wDb wPairs).1, ?_⟩
  exact (c5_set_build_statuses_frame wDb wPairs).2 wRowUnmatched (by decide)

-- Claim C10 ----------------------------------------------------------------

/-- C10: when the `(owner, name)` key of a pair is present in no row,
`set_build_statuses` on that single pair matches zero rows and leaves the
whole state unchanged — no row is inserted and nothing errors (the
operation is total). -/
theorem c10_set_missing_key_noop (db : DB) (k : String × String)
    (s : BuildStatus) (h : ∀ row ∈ db, keyMatches row k.1 k.2 = false) :
    set_build_statuses db [(k, s)] = db := by
  show setBuildStatus db k.1 k.2 s = db
  unfold setBuildStatus
  have h1 : db.map (fun row =>
      if keyMatches row k.1 k.2 = true then
        { row with build_status := some s.toDbString }
      else row) = db.map id :=
    List.map_congr_left fun row hm => by simp [h row hm]
  rw [h1, List.map_id]

/-- C10 witness: updating a key absent from a concrete database leaves it
unchanged. -/
theorem c10_set_missing_key_noop_witness :
    set_build_statuses c2db [(("x", "y"), BuildStatus.Success)] = c2db :=
  c10_set_missing_key_noop c2db ("x", "y") BuildStatus.Success (by decide)

-- Cache read lemmas --------------------------------------------------------

theorem parse_toDbString (bs : BuildStatus) :
    parseBuildStatus bs.toDbString = some bs := by
  cases bs <;> rfl

theorem WFRow_encodeRepo (r : Repository) : WFRow (encodeRepo r) := by
  unfold WFRow encodeRepo
  cases r.build_status with
  | none => rfl
  | some bs => simp [parse_toDbString]

theorem decodeRow_of_WFRow (row : DbRow) (h : WFRow row) :
    decodeRow row =
      some { name := row.name, owner := row.owner, a_fork := false,
             archived := false,
             build_status := row.build_status.bind parseBuildStatus } := by
  unfold WFRow at h
  cases hb : row.build_status with
  | none => simp [decodeRow, hb]
  | some s =>
    rw [hb] at h
    simp only [Option.some_bind] at h ⊢
    cases hp : parseBuildStatus s with
    | none => rw [hp] at h; simp at h
    | some bs => simp [decodeRow, hb, hp]

theorem decodeRow_name_owner (row : DbRow) (x : Repository)
    (h : decodeRow row = some x) : x.name = row.name ∧ x.owner = row.owner := by
  cases hb : row.build_status with
  | none =>
    simp only [decodeRow, hb, Option.some_inj] at h
    rw [← h]
    exact ⟨rfl, rfl⟩
  | some s =>
    simp only [decodeRow, hb] at h
    cases hp : parseBuildStatus s with
    | none =>
      rw [hp, Option.map_none'] at h
      cases h
    | some bs =>
      rw [hp, Option.map_some', Option.some_inj] at h
      rw [← h]
      exact ⟨rfl, rfl⟩

theorem decode_encode (r : Repository) :
    decodeRow (encodeRepo r) =
      some { name := r.name, owner := r.owner, a_fork := false,
             archived := false, build_status := r.build_status } := by
  rw [decodeRow_of_WFRow (encodeRepo r) (WFRow_encodeRepo r)]
  unfold encodeRepo
  cases r.build_status with
  | none => rfl
  | some bs => simp [parse_toDbString]

theorem mapM_decode_of_WF (l : List DbRow) (h : ∀ row ∈ l, WFRow row) :
    l.mapM decodeRow =
      some (l.map fun row =>
        { name := row.name, owner := row.owner, a_fork := false,
          archived := false,
          build_status := row.build_status.bind parseBuildStatus }) := by
  rw [← List.mapM'_eq_mapM]
  induction l with
  | nil => rfl
  | cons a t ih =>
    show (decodeRow a).bind _ = _
    rw [decodeRow_of_WFRow a (h a (List.mem_cons_self a t)), Option.some_bind,
      ih fun row hm => h row (List.mem_cons_of_mem a hm)]
    rfl

theorem mapM_decode_mem (l : List DbRow) (rs : List Repository)
    (h : l.mapM decodeRow = some rs) :
    ∀ x ∈ rs, ∃ row ∈ l, decodeRow row = some x := by
  rw [← List.mapM'_eq_mapM] at h
  induction l generalizing rs with
  | nil =>
    cases h
    intro x hx
    cases hx
  | cons a t ih =>
    replace h : (decodeRow a).bind
        (fun b => (List.mapM' decodeRow t).bind fun bs => some (b :: bs)) =
        some rs := h
    cases hd : decodeRow a with
    | none => rw [hd] at h; cases h
    | some b =>
      rw [hd, Option.some_bind] at h
      cases hm : List.mapM' decodeRow t with
      | none => rw [hm] at h; cases h
      | some bs =>
        rw [hm, Option.some_bind, Option.some_inj] at h
        subst h
        intro x hx
        cases hx with
        | head => exact ⟨a, List.mem_cons_self a t, hd⟩
        | tail _ hx =>
          obtain ⟨row, hrow, hdec⟩ := ih bs hm x hx
          exact ⟨row, List.mem_cons_of_mem a hrow, hdec⟩

theorem visibleFor_spec (owner : String) (row : DbRow) :
    visibleFor owner row = true ↔
      row.owner = owner ∧ row.a_fork = false ∧ row.archived = false := by
  simp [visibleFor, and_assoc]

theorem get_dashboard_visible (db : DB) (owner : String) (h : WF db) :
    get_dashboard_repositories db owner =
      some ((db.filter (visibleFor owner)).map fun row =>
        { name := row.name, owner := row.owner, a_fork := row.a_fork,
          archived := row.archived,
          build_status := row.build_status.bind parseBuildStatus }) := by
  unfold get_dashboard_repositories
  rw [mapM_decode_of_WF _ fun row hm => h row (List.mem_of_mem_filter hm)]
  congr 1
  apply List.map_congr_left
  intro row hm
  obtain ⟨-, hf, ha⟩ := (visibleFor_spec owner row).mp (List.of_mem_filter hm)
  rw [hf, ha]

-- Claim C3 -----------------------------------------------------------------

/-- C3 counterexample: `get_dashboard_repositories` does not return all
records stored under an owner — a stored fork row owned by "o" is absent
from the result, which is empty. -/
theorem c3_fork_row_not_returned_cex :
    c3forkRow ∈ c3db ∧ c3forkRow.owner = "o" ∧
      get_dashboard_repositories c3db "o" = some [] := by
  refine ⟨by decide, by decide, by decide⟩

/-- C3 (amended): for every owner, `get_dashboard_repositories` returns
exactly the records stored under that owner whose `a_fork` and `archived`
flags are both false, each with its fields equal to the stored values
(the status decoded from its stored encoding, which re-encodes to the
stored column value), provided every stored status string is a value the
program writes (`WF`). -/
theorem c3_get_returns_visible_rows (db : DB) (owner : String) (h : WF db) :
    get_dashboard_repositories db owner =
      some ((db.filter (visibleFor owner)).map fun row =>
        { name := row.name, owner := row.owner, a_fork := row.a_fork,
          archived := row.archived,
          build_status := row.build_status.bind parseBuildStatus }) ∧
    ∀ row ∈ db.filter (visibleFor owner),
      (row.build_status.bind parseBuildStatus).map BuildStatus.toDbString =
        row.build_status :=
  ⟨get_dashboard_visible db owner h,
   fun row hm => h row (List.mem_of_mem_filter hm)⟩

/-- C3 witness: the amended read contract evaluated on a concrete
database holding one visible row and one archived row. -/
theorem c3_get_returns_visible_rows_witness :
    WF wDb ∧
    (get_dashboard_repositories wDb "o" =
      some ((wDb.filter (visibleFor "o")).map fun row =>
        { name := row.name, owner := row.owner, a_fork := row.a_fork,
          archived := row.archived,
          build_status := row.build_status.bind parseBuildStatus }) ∧
    ∀ row ∈ wDb.filter (visibleFor "o"),
      (row.build_status.bind parseBuildStatus).map BuildStatus.toDbString =
        row.build_status) :=
  ⟨by decide, c3_get_returns_visible_rows wDb "o" (by decide)⟩

-- Upsert lemmas ------------------------------------------------------------

theorem keyMatches_encodeRepo_self (r : Repository) :
    keyMatches (encodeRepo r) r.owner r.name = true := by
  simp [keyMatches, encodeRepo]

theorem insertRow_filter_self (db : DB) (r : Repository) :
    (insertRow db r).filter (fun row => keyMatches row r.owner r.name) =
      [encodeRepo r] := by
  unfold insertRow
  rw [List.filter_append, List.filter_filter]
  have h1 : (fun a : DbRow =>
      keyMatches a r.owner r.name && !keyMatches a r.owner r.name) =
      fun _ => false :=
    funext fun a => by cases keyMatches a r.owner r.name <;> rfl
  rw [h1]
  simp [List.filter_cons, keyMatches_encodeRepo_self]

theorem keyMatches_prop (row : DbRow) (o n : String) :
    keyMatches row o n = true ↔ row.owner = o ∧ row.name = n := by
  simp [keyMatches]

theorem insertRow_filter_other (db : DB) (r r' : Repository)
    (hne : ¬(r'.owner = r.owner ∧ r'.name = r.name)) :
    (insertRow db r').filter (fun row => keyMatches row r.owner r.name) =
      db.filter (fun row => keyMatches row r.owner r.name) := by
  unfold insertRow
  rw [List.filter_append, List.filter_filter]
  have h1 : ∀ a : DbRow,
      (keyMatches a r.owner r.name && !keyMatches a r'.owner r'.name) =
        keyMatches a r.owner r.name := by
    intro a
    by_cases hk : keyMatches a r.owner r.name = true
    · obtain ⟨ho, hn⟩ := (keyMatches_prop a r.owner r.name).mp hk
      have hk' : keyMatches a r'.owner r'.name = false := by
        by_contra hx
        rw [Bool.not_eq_false] at hx
        obtain ⟨ho', hn'⟩ := (keyMatches_prop a r'.owner r'.name).mp hx
        exact hne ⟨by rw [← ho', ho], by rw [← hn', hn]⟩
      rw [hk, hk']
      rfl
    · rw [Bool.not_eq_true] at hk
      rw [hk]
      rfl
  have h2 : keyMatches (encodeRepo r') r.owner r.name = false := by
    by_contra hx
    rw [Bool.not_eq_false] at hx
    obtain ⟨ho, hn⟩ := (keyMatches_prop _ r.owner r.name).mp hx
    exact hne ⟨ho, hn⟩
  rw [funext h1]
  simp [List.filter_cons, h2]

theorem put_filter_key_aux (r : Repository) :
    ∀ (rs : List Repository) (db : DB),
      (∀ x ∈ rs, x.owner = r.owner → x.name = r.name → x = r) →
      (r ∈ rs ∨
        db.filter (fun row => keyMatches row r.owner r.name) = [encodeRepo r]) →
      (put_repositories db rs).filter (fun row => keyMatches row r.owner r.name) =
        [encodeRepo r] := by
  intro rs
  induction rs with
  | nil =>
    intro db _ h
    cases h with
    | inl h => cases h
    | inr h => exact h
  | cons a rest ih =>
    intro db huniq h
    show (put_repositories (insertRow db a) rest).filter _ = _
    by_cases ha : a = r
    · subst ha
      exact ih (insertRow db a)
        (fun x hx => huniq x (List.mem_cons_of_mem a hx))
        (Or.inr (insertRow_filter_self db a))
    · have hk : ¬(a.owner = r.owner ∧ a.name = r.name) := fun hc =>
        ha (huniq a (List.mem_cons_self a rest) hc.1 hc.2)
      refine ih (insertRow db a)
        (fun x hx => huniq x (List.mem_cons_of_mem a hx)) ?_
      cases h with
      | inl hm =>
        cases List.mem_cons.mp hm with
        | inl he => exact absurd he.symm ha
        | inr hm' => exact Or.inl hm'
      | inr hf =>
        exact Or.inr (by rw [insertRow_filter_other db r a hk]; exact hf)

-- Claim C4 -----------------------------------------------------------------

/-- C4: `put_repositories` is an upsert keyed by `(owner, name)`.  For
every prior state and every incoming record whose key already exists (and
which is the only record in the batch carrying its key), after
`put_repositories` the only stored row at that key is the wholesale
encoding of the incoming record — `build_status` included, so it becomes
exactly what the incoming record carries, replacing any previously stored
status — and a subsequent `get_dashboard_repositories` for that owner
returns, at that key, only the new record. -/
theorem c4_put_repositories_upsert (db : DB) (rs : List Repository)
    (r : Repository) (hmem : r ∈ rs)
    (huniq : ∀ x ∈ rs, x.owner = r.owner → x.name = r.name → x = r)
    (hconflict : ∃ row ∈ db, keyMatches row r.owner r.name = true) :
    ((put_repositories db rs).filter
        (fun row => keyMatches row r.owner r.name) = [encodeRepo r]) ∧
    ∀ res, get_dashboard_repositories (put_repositories db rs) r.owner =
        some res →
      ∀ x ∈ res, x.name = r.name → x = r := by
  have hfilter := put_filter_key_aux r rs db huniq (Or.inl hmem)
  refine ⟨hfilter, ?_⟩
  intro res hget x hx hname
  obtain ⟨row, hrowmem, hdec⟩ := mapM_decode_mem _ res hget x hx
  have hvis := (visibleFor_spec r.owner row).mp (List.of_mem_filter hrowmem)
  have hmem' : row ∈ put_repositories db rs := List.mem_of_mem_filter hrowmem
  obtain ⟨hxname, hxowner⟩ := decodeRow_name_owner row x hdec
  have hrowname : row.name = r.name := by rw [← hxname, hname]
  have hrowkey : keyMatches row r.owner r.name = true :=
    (keyMatches_prop row r.owner r.name).mpr ⟨hvis.1, hrowname⟩
  have hrow_in : row ∈ (put_repositories db rs).filter
      (fun row => keyMatches row r.owner r.name) :=
    List.mem_filter.mpr ⟨hmem', hrowkey⟩
  rw [hfilter, List.mem_singleton] at hrow_in
  subst hrow_in
  rw [decode_encode] at hdec
  have hx_eq := (Option.some_inj.mp hdec).symm
  have hfork : r.a_fork = false := hvis.2.1
  have harch : r.archived = false := hvis.2.2
  rw [hx_eq]
  cases r with
  | mk nm ow fk ar bs =>
    simp only at hfork harch
    rw [hfork, harch]

/-- C4 witness: upserting a record whose key is already present in a
concrete database replaces the stored row wholesale, and the dashboard
read returns only the new record at that key. -/
theorem c4_put_repositories_upsert_witness :
    wRepo ∈ [wRepo] ∧
    (∃ row ∈ wDb, keyMatches row wRepo.owner wRepo.name = true) ∧
    (((put_repositories wDb [wRepo]).filter
        (fun row => keyMatches row wRepo.owner wRepo.name) =
          [encodeRepo wRepo]) ∧
      ∀ res, get_dashboard_repositories (put_repositories wDb [wRepo])
          wRepo.owner = some res →
        ∀ x ∈ res, x.name = wRepo.name → x = wRepo) :=
  ⟨by decide, by decide,
   c4_put_repositories_upsert wDb [wRepo] wRepo (by decide) (by decide)
     (by decide)⟩

-- Claim C2 -----------------------------------------------------------------

/-- C2 counterexample: the fetch for repository "b" fails, yet
`update_build_statuses` does not propagate the error — it returns
successfully, and the pair collected for "a" before the failure has been
persisted (the resulting state differs from the original). -/
theorem c2_error_swallowed_partial_persist_cex :
    c2fetch { name := "b", owner := "o", a_fork := false, archived := false,
              build_status := none } = Except.error () ∧
    update_build_statuses c2fetch c2db "o" = some c2dbAfter ∧
    c2dbAfter ≠ c2db := by
  refine ⟨rfl, by decide, by decide⟩

/-- C2 (amended): a fetch error stops the status-fetch stream at the
failing repository but never propagates to the caller of
`update_build_statuses` — the producer task's result is dropped unawaited
— so the call returns successfully and the pairs collected before the
error ARE persisted via `set_build_statuses`. -/
theorem c2_update_swallows_error
    (fetch : Repository → Except Unit (Option BuildStatus)) (db : DB)
    (owner : String) (h : WF db) :
    ∃ db', update_build_statuses fetch db owner = some db' ∧
      db' = set_build_statuses db
        ((collectStatuses fetch ((db.filter (visibleFor owner)).map fun row =>
            { name := row.name, owner := row.owner, a_fork := row.a_fork,
              archived := row.archived,
              build_status := row.build_status.bind parseBuildStatus })).map
          fun p => ((p.1.owner, p.1.name), p.2)) := by
  unfold update_build_statuses
  rw [get_dashboard_visible db owner h, Option.map_some']
  exact ⟨_, rfl, rfl⟩

/-- C2 witness: the amended behaviour on a concrete database and a fetch
that fails on the second repository. -/
theorem c2_update_swallows_error_witness :
    WF c2db ∧
    ∃ db', update_build_statuses c2fetch c2db "o" = some db' ∧
      db' = set_build_statuses c2db
        ((collectStatuses c2fetch ((c2db.filter (visibleFor "o")).map fun row =>
            { name := row.name, owner := row.owner, a_fork := row.a_fork,
              archived := row.archived,
              build_status := row.build_status.bind parseBuildStatus })).map
          fun p => ((p.1.owner, p.1.name), p.2)) :=
  ⟨by decide, c2_update_swallows_error c2fetch c2db "o" (by decide)⟩

-- Pagination lemmas --------------------------------------------------------

theorem flatten_range_succ_shift (g : Nat → List T) (k : Nat) :
    ((List.range (k + 1)).map g).flatten =
      g 0 ++ ((List.range k).map fun i => g (i + 1)).flatten := by
  rw [List.range_succ_eq_map, List.map_cons, List.flatten_cons, List.map_map]
  rfl

theorem runPages_end (fetch : PagedSource T) (f : Nat) :
    runPages fetch PageCursor.End f = some [] := by
  cases f <;> rfl

theorem runPages_terminates (fetch : PagedSource T) :
    ∀ (k p fuel : Nat), (∀ i, i < k → (fetch (p + i)).2 = true) →
      (fetch (p + k)).2 = false → p + k ≤ 255 → k + 1 ≤ fuel →
      runPages fetch (.Page p) fuel =
        some (((List.range (k + 1)).map fun i => (fetch (p + i)).1).flatten) := by
  intro k
  induction k with
  | zero =>
    intro p fuel h1 h2 h3 h4
    obtain ⟨f, rfl⟩ : ∃ f, fuel = f + 1 := ⟨fuel - 1, by omega⟩
    rw [Nat.add_zero] at h2
    show (runPages fetch (if (fetch p).2 then .Page ((p + 1) % 256) else .End)
        f).map ((fetch p).1 ++ ·) = _
    rw [h2, show (if (false = true) then
        PageCursor.Page ((p + 1) % 256) else PageCursor.End) = PageCursor.End
      from rfl]
    rw [runPages_end, Option.map_some']
    rw [show List.range 1 = [0] from rfl, List.map_cons, List.map_nil,
      List.flatten_cons, List.flatten_nil, List.append_nil, Nat.add_zero,
      List.append_nil]
  | succ k ih =>
    intro p fuel h1 h2 h3 h4
    obtain ⟨f, rfl⟩ : ∃ f, fuel = f + 1 := ⟨fuel - 1, by omega⟩
    have hm : (fetch p).2 = true := by
      have := h1 0 (by omega)
      rwa [Nat.add_zero] at this
    show (runPages fetch (if (fetch p).2 then .Page ((p + 1) % 256) else .End)
        f).map ((fetch p).1 ++ ·) = _
    rw [hm, if_pos rfl, Nat.mod_eq_of_lt (by omega : p + 1 < 256),
      ih (p + 1) f (fun i hi => by
          have := h1 (i + 1) (by omega)
          rwa [show p + (i + 1) = p + 1 + i by omega] at this)
        (by rwa [show p + 1 + k = p + (k + 1) by omega])
        (by omega) (by omega)]
    rw [Option.map_some',
      flatten_range_succ_shift (fun i => (fetch (p + i)).1) (k + 1)]
    have harg : (fun i => (fetch (p + (i + 1))).1) =
        fun i => (fetch (p + 1 + i)).1 :=
      funext fun i => by rw [show p + (i + 1) = p + 1 + i by omega]
    rw [harg]
    simp

theorem runPages_diverges (fetch : PagedSource T)
    (hall : ∀ q, q ≤ 255 → (fetch q).2 = true) :
    ∀ (fuel p : Nat), p ≤ 255 → runPages fetch (.Page p) fuel = none := by
  intro fuel
  induction fuel with
  | zero => intro p _; rfl
  | succ f ih =>
    intro p hp
    show (runPages fetch (if (fetch p).2 then .Page ((p + 1) % 256) else .End)
        f).map ((fetch p).1 ++ ·) = none
    rw [hall p hp, if_pos rfl, ih ((p + 1) % 256) (by omega)]
    rfl

-- Claim C6 -----------------------------------------------------------------

/-- C6 counterexample: a finite paged source on which the stream does not
terminate.  `deepSource` has 257 pages — every page from 256 on reports no
further data — but because the `u8` page cursor wraps to page 0 after page
255, the stream never reaches page 256: it diverges (runs out of any
amount of fuel), instead of yielding the concatenation of the batches and
terminating. -/
theorem c6_deep_source_diverges_cex :
    (deepSource 256).2 = false ∧
    (∀ p, 256 ≤ p → (deepSource p).2 = false) ∧
    ∀ fuel, runPages deepSource (PageCursor.Page 0) fuel = none := by
  refine ⟨rfl, fun p hp => ?_, fun fuel =>
    runPages_diverges deepSource (fun q hq => ?_) fuel 0 (by omega)⟩
  · show decide (p < 256) = false
    simp
    omega
  · show decide (q < 256) = true
    simp
    omega

/-- C6 (amended): for every paged source whose first page reporting no
further data has index at most 255 (so the `u8` page counter never
wraps), the stream yields exactly the concatenation of the batches of
pages 0 through that page, in page order, and terminates right after the
first fetch that reports no more data; in particular an empty first batch
with no further data yields the empty sequence, not an error. -/
theorem c6_pagination_complete (fetch : PagedSource T) (n fuel : Nat)
    (h1 : ∀ i, i < n → (fetch i).2 = true) (h2 : (fetch n).2 = false)
    (h3 : n ≤ 255) (h4 : n + 1 ≤ fuel) :
    runPages fetch (.Page 0) fuel =
      some (((List.range (n + 1)).map fun i => (fetch i).1).flatten) := by
  have h := runPages_terminates fetch n 0 fuel
    (fun i hi => by rw [Nat.zero_add]; exact h1 i hi)
    (by rwa [Nat.zero_add]) (by omega) h4
  simpa using h

/-- C6 witness: on a concrete two-page source the stream yields the three
items of both batches in page order. -/
theorem c6_pagination_complete_witness :
    (twoPageSource 1).2 = false ∧
    runPages twoPageSource (PageCursor.Page 0) 2 =
      some (((List.range 2).map fun i => (twoPageSource i).1).flatten) :=
  ⟨by decide,
   c6_pagination_complete twoPageSource 1 2 (by decide) (by decide)
     (by decide) (by decide)⟩

-- Claim C7 -----------------------------------------------------------------

/-- C7: the page-cursor invariant.  From any reachable state: once the
cursor is `End`, the unfold body issues no fetch (it returns `none` for
every fetch function alike), and a reachable `Page n` with `n ≠ 0` can
only have arisen from a fetch, at some reachable page `p`, whose response
reported more data available. -/
theorem c7_cursor_invariant (fetch : PagedSource T) (n : Nat) (hn : n ≠ 0)
    (h : ReachableCursor fetch (.Page n)) :
    (∀ g : PagedSource T, fetchStep g PageCursor.End = none) ∧
    ∃ p, ReachableCursor fetch (.Page p) ∧ (fetch p).2 = true ∧
      n = (p + 1) % 256 := by
  refine ⟨fun g => rfl, ?_⟩
  cases h with
  | start => exact absurd rfl hn
  | more hp hm => exact ⟨_, hp, hm, rfl⟩

/-- C7 witness: the invariant evaluated at the reachable state `Page 1`
of the always-more source. -/
theorem c7_cursor_invariant_witness :
    ReachableCursor allMoreSource (PageCursor.Page 1) ∧
    ((∀ g : PagedSource Nat, fetchStep g PageCursor.End = none) ∧
      ∃ p, ReachableCursor allMoreSource (PageCursor.Page p) ∧
        (allMoreSource p).2 = true ∧ 1 = (p + 1) % 256) :=
  have hr : ReachableCursor allMoreSource (PageCursor.Page 1) :=
    ReachableCursor.more ReachableCursor.start rfl
  ⟨hr, c7_cursor_invariant allMoreSource 1 (by decide) hr⟩

-- Claim C8 -----------------------------------------------------------------

set_option maxRecDepth 8192 in
/-- C8 counterexample: the page number is a `u8` and wraps.  With a source
whose first 256 fetches all report more data, the cursor after those 256
fetches is `Page 0` — the 257th fetch is issued with page number 0, not
with the next page number 256. -/
theorem c8_page_wraps_cex :
    (∀ i, i < 256 → (allMoreSource (i % 256)).2 = true) ∧
    cursorTrace allMoreSource 256 = PageCursor.Page 0 ∧
    PageCursor.Page 0 ≠ PageCursor.Page 256 := by
  refine ⟨fun _ _ => rfl, by decide, by decide⟩

/-- C8 (amended): the stream has no self-imposed stopping point: if every
one of the first `n` fetches reports more data available, the cursor
after `n` fetches is `Page (n % 256)` — another fetch is always issued,
at the next page number taken modulo 256 (`u8` wrap-around); only
remote-signalled exhaustion ends the stream. -/
theorem c8_stream_never_self_terminates (fetch : PagedSource T) (n : Nat)
    (h : ∀ i, i < n → (fetch (i % 256)).2 = true) :
    cursorTrace fetch n = .Page (n % 256) := by
  induction n with
  | zero => rfl
  | succ k ih =>
    have hk := ih fun i hi => h i (by omega)
    have hstep : cursorTrace fetch (k + 1) =
        (match cursorTrace fetch k with
         | PageCursor.End => PageCursor.End
         | PageCursor.Page p =>
           if (fetch p).2 then PageCursor.Page ((p + 1) % 256)
           else PageCursor.End) := rfl
    rw [hstep, hk]
    show (if (fetch (k % 256)).2 then PageCursor.Page ((k % 256 + 1) % 256)
        else PageCursor.End) = PageCursor.Page ((k + 1) % 256)
    rw [h k (by omega), if_pos rfl]
    congr 1
    omega

/-- C8 witness: after three always-more fetches the cursor sits at page
`3 % 256` and the stream is still issuing fetches. -/
theorem c8_stream_never_self_terminates_witness :
    cursorTrace allMoreSource 3 = PageCursor.Page (3 % 256) :=
  c8_stream_never_self_terminates allMoreSource 3 fun _ _ => rfl

end Shub
